import Mathlib

/-!
A shallow embedding of the FinalInline pass (src/opt/final_inline/FinalInline.cpp):
final-static-field inlining and constant propagation over an Android-style class
scope.  Classes, static fields, methods and instructions are modelled as plain
inductive data; machine integers are `Nat` with explicit `% 2^w` / `&&&` where
the C++ casts or masks; fallible code (the `always_assert_log` fatal paths)
returns `Option`.  C++ pointer identity of instructions is modelled by a `uid`
field carried by every instruction: the pass never allocates two live
instructions with the same uid (replacement keeps the replaced instruction's
uid, which is observationally equivalent because no later phase refers to the
old pointer), and well-formedness of concrete inputs means distinct uids.
-/

/-! ## Data model (DexClass.h / IRInstruction, restricted to what FinalInline touches) -/

/-- Dex access flag ACC_STATIC. -/
def ACC_STATIC : Nat := 0x8

/-- Dex access flag ACC_FINAL. -/
def ACC_FINAL : Nat := 0x10

/-- Dex access flag ACC_CONSTRUCTOR. -/
def ACC_CONSTRUCTOR : Nat := 0x10000

/-- `is_static` on an access bit set. -/
def is_static_acc (a : Nat) : Bool := a &&& ACC_STATIC ≠ 0

/-- `is_final` on an access bit set. -/
def is_final_acc (a : Nat) : Bool := a &&& ACC_FINAL ≠ 0

/-- `is_constructor` on an access bit set. -/
def is_constructor_acc (a : Nat) : Bool := a &&& ACC_CONSTRUCTOR ≠ 0

/-- `is_primitive` on a type descriptor: the primitive dex descriptors. -/
def is_primitive_type (t : String) : Bool :=
  t = "Z" || t = "B" || t = "S" || t = "C" || t = "I" || t = "J" || t = "F" || t = "D"

/-- A DexEncodedValue: an evtype (here only whether it is a primitive evtype)
and a raw 64-bit payload (`value()` is a `uint64_t`). -/
structure EncodedValue where
  primitive : Bool
  val : Nat
deriving DecidableEq, Repr

/-- `DexEncodedValue::zero_for_type`: a zero payload whose evtype is primitive
exactly when the field type is primitive. -/
def zero_for_type (t : String) : EncodedValue :=
  { primitive := is_primitive_type t, val := 0 }

/-- A symbolic field reference as carried by sget/sput instructions:
declaring class name and member name. -/
structure FieldRef where
  cls : String
  name : String
deriving DecidableEq, Repr

/-- A field key: the (declaring class, member name) pair that stands in for
C++ `DexField*` identity. -/
abbrev FieldKey := String × String

/-- A static field definition: declaring class, name, type descriptor, access
bits, concreteness, and the optional encoded static value (`nullptr` = none). -/
structure DexField where
  cls : String
  name : String
  ftype : String
  access : Nat
  concrete : Bool
  value : Option EncodedValue
deriving DecidableEq, Repr

/-- The identity key of a field definition. -/
def DexField.key (f : DexField) : FieldKey := (f.cls, f.name)

/-- The non-wide sget opcodes of this file (SGET, SGET_BOOLEAN, SGET_BYTE,
SGET_CHAR, SGET_SHORT), plus SGET_WIDE and SGET_OBJECT which the pass treats
specially (unhandled resp. fatal). -/
inductive SgetKind where
  | norm
  | bool
  | byte
  | char
  | short
  | wide
  | obj
deriving DecidableEq, Repr

/-- The constant-load opcodes this file distinguishes: OPCODE_CONST_4,
OPCODE_CONST_16, OPCODE_CONST_HIGH16, OPCODE_CONST (wide-32). -/
inductive ConstKind where
  | c4
  | c16
  | high16
  | c32
deriving DecidableEq, Repr

/-- Instruction payload: the opcodes FinalInline inspects, plus a generic
`other` opcode carrying an optional destination register and source registers
(all other opcodes participate only in the register-reuse scan). -/
inductive InsnOp where
  | constOp (k : ConstKind) (dest : Nat) (lit : Nat)
  | sget (k : SgetKind) (dest : Nat) (fref : FieldRef)
  | sput (src : Nat) (fref : FieldRef)
  | retVoid
  | other (dest : Option Nat) (srcs : List Nat)
deriving DecidableEq, Repr

/-- An IR instruction: a uid standing in for C++ object identity, plus the
opcode payload. -/
structure Instr where
  uid : Nat
  op : InsnOp
deriving DecidableEq, Repr

/-- `dests_size() > 0` and `dest()` as one optional register. -/
def Instr.destReg (i : Instr) : Option Nat :=
  match i.op with
  | .constOp _ d _ => some d
  | .sget _ d _ => some d
  | .sput _ _ => none
  | .retVoid => none
  | .other d _ => d

/-- `srcs_size()` / `src(r)` as a register list. -/
def Instr.srcRegs (i : Instr) : List Nat :=
  match i.op with
  | .constOp _ _ _ => []
  | .sget _ _ _ => []
  | .sput s _ => [s]
  | .retVoid => []
  | .other _ ss => ss

/-- `has_fields()`: the instruction carries a field reference. -/
def Instr.hasFields (i : Instr) : Bool :=
  match i.op with
  | .sget _ _ _ => true
  | .sput _ _ => true
  | _ => false

/-- A method: access bits plus an instruction stream. -/
structure DexMethod where
  access : Nat
  code : List Instr
deriving DecidableEq, Repr

/-- A class: unique type name, static fields, optional static initialiser,
and the remaining methods (the pass walks all of them the same way). -/
structure DexClass where
  name : String
  sfields : List DexField
  clinit : Option DexMethod
  methods : List DexMethod
deriving DecidableEq, Repr

/-- The class scope: an ordered sequence of classes. -/
abbrev Scope := List DexClass

/-! ## Field resolution and scope mutation -/

/-- `resolve_field(ref, FieldSearch::Static)`: find the class named by the
reference, then the static field definition of that name.  The hierarchy walk
of the real resolver collapses to a flat lookup because the model keeps every
definition on its declaring class. -/
def resolve_field (scope : Scope) (ref : FieldRef) : Option DexField :=
  match scope.find? (fun c => c.name = ref.cls) with
  | none => none
  | some c => c.sfields.find? (fun f => f.name = ref.name)

/-- Look a field definition up by key (a C++ `DexField*` dereference). -/
def lookup_field (scope : Scope) (k : FieldKey) : Option DexField :=
  resolve_field scope { cls := k.1, name := k.2 }

/-- `DexField::make_concrete(field->get_access(), ev)`: set the field's
encoded static value (possibly to nullptr), keeping its access bits. -/
def make_field_concrete (scope : Scope) (k : FieldKey) (ev : Option EncodedValue) : Scope :=
  scope.map (fun c =>
    if c.name = k.1 then
      { c with sfields := c.sfields.map (fun f =>
          if f.name = k.2 then { f with concrete := true, value := ev } else f) }
    else c)

/-- Fetch a class by name. -/
def lookup_class (scope : Scope) (cname : String) : Option DexClass :=
  scope.find? (fun c => c.name = cname)

/-- `DexClass::remove_method(clinit)` for the static initialiser. -/
def remove_clinit (scope : Scope) (cname : String) : Scope :=
  scope.map (fun c => if c.name = cname then { c with clinit := none } else c)

/-! ## 4.A Instruction classifier -/

/-- `check_sget`: true for the non-wide sget family; SGET_WIDE is unhandled
(diagnostic counter only, not modelled) and everything else is rejected. -/
def check_sget (k : SgetKind) : Bool :=
  match k with
  | .wide => false
  | .norm => true
  | .bool => true
  | .byte => true
  | .char => true
  | .short => true
  | .obj => false

/-- `validate_sget`: `some true` to rewrite, `some false` for the unhandled
SGET_WIDE, and `none` for the fatal `always_assert_log` default branch (any
other opcode reaching the inliner). -/
def validate_sget (i : Instr) : Option Bool :=
  match i.op with
  | .sget k _ _ =>
    match k with
    | .wide => some false
    | .norm => some true
    | .bool => some true
    | .byte => some true
    | .char => some true
    | .short => some true
    | .obj => none
  | _ => none

/-! ## 4.B Blank-static detector -/

/-- `get_sput_in_clinit`: the fields of `clazz` written by its own static
initialiser (the *blank statics*).  `none` models the fatal assertion fired
when a clinit lacks the static+constructor access bits. -/
def get_sput_in_clinit (scope : Scope) (clazz : DexClass) : Option (List FieldKey) :=
  match clazz.clinit with
  | none => some []
  | some m =>
    if is_static_acc m.access && is_constructor_acc m.access then
      some (m.code.filterMap (fun i =>
        match i.op with
        | .sput _ fref =>
          match resolve_field scope fref with
          | none => none
          | some f =>
            if f.concrete && f.cls = clazz.name then some f.key else none
        | _ => none))
    else none

/-! ## 4.C Encodable-clinit replacer -/

/-- `validate_const_for_ev`: only OPCODE_CONST_4, OPCODE_CONST_16 and
OPCODE_CONST can be lifted into an encoded value (CONST_HIGH16 falls to the
default branch and is rejected). -/
def validate_const_for_ev (i : Instr) : Bool :=
  match i.op with
  | .constOp k _ _ =>
    match k with
    | .c4 => true
    | .c16 => true
    | .c32 => true
    | .high16 => false
  | _ => false

/-- `validate_sput_for_ev`: the op is an sput whose target resolves (possibly
to a non-concrete definition) to a field declared in `clazz`. -/
def validate_sput_for_ev (scope : Scope) (clazz : DexClass) (i : Instr) : Bool :=
  match i.op with
  | .sput _ fref =>
    match resolve_field scope fref with
    | none => false
    | some f => f.cls = clazz.name
  | _ => false

/-- The pair-shape loop of `try_replace_clinit`: consume a (const, sput) pair
per iteration; when a single instruction remains it must be return-void; an
empty remainder after a full pair exits the loop accepting the pairs seen so
far (the C++ `for` condition fires before the return-void test runs). -/
def collect_const_sputs (scope : Scope) (clazz : DexClass) :
    List Instr → Option (List (Instr × Instr))
  | [] => some []
  | [i] => if i.op = .retVoid then some [] else none
  | c :: s :: rest =>
    if validate_const_for_ev c && validate_sput_for_ev scope clazz s &&
        c.destReg = s.srcRegs.head? then
      (collect_const_sputs scope clazz rest).map (fun ps => (c, s) :: ps)
    else none

/-- The literal payload of a const op (0 when the op carries none; unreachable
for validated pairs). -/
def Instr.litOf (i : Instr) : Nat :=
  match i.op with
  | .constOp _ _ l => l
  | _ => 0

/-- Attach one accepted pair's encoded value: resolve the sput's target and
make it concrete with `zero_for_type` of its declared type, payload set to the
const's literal (the int64 → uint64 cast is the identity on bit patterns). -/
def apply_const_sput (scope : Scope) (pr : Instr × Instr) : Scope :=
  match pr.2.op with
  | .sput _ fref =>
    match resolve_field scope fref with
    | none => scope
    | some f =>
      make_field_concrete scope f.key
        (some { zero_for_type f.ftype with val := pr.1.litOf })
  | _ => scope

/-- `try_replace_clinit`: on a recognised shape, attach every pair's encoded
value in order (last write wins) and remove the initialiser; otherwise `none`
and the caller leaves the class untouched. -/
def try_replace_clinit (scope : Scope) (clazz : DexClass) (m : DexMethod) : Option Scope :=
  match collect_const_sputs scope clazz m.code with
  | none => none
  | some prs => some (remove_clinit (prs.foldl apply_const_sput scope) clazz.name)

/-- `replace_encodable_clinits`: walk the scope (by the fixed original class
list, against the current mutable state) replacing each eligible initialiser;
returns the new scope and the `nreplaced` count. -/
def replace_encodable_clinits (scope : Scope) : Scope × Nat :=
  (scope.map (fun c => c.name)).foldl
    (fun acc cname =>
      match lookup_class acc.1 cname with
      | none => acc
      | some clazz =>
        match clazz.clinit with
        | none => acc
        | some m =>
          match try_replace_clinit acc.1 clazz m with
          | none => acc
          | some sc => (sc, acc.2 + 1))
    (scope, 0)

/-! ## 4.D Dependency resolver -/

/-- Whether the instruction writes the register (`dests_size() > 0 && dest() == reg`). -/
def writes_reg (i : Instr) (reg : Nat) : Bool := i.destReg = some reg

/-- Whether the register appears among the instruction's sources. -/
def reads_reg (i : Instr) (reg : Nat) : Bool := i.srcRegs.contains reg

/-- The source-register-reuse scan of `propagate_constants`, over the
instructions from `i+2` on: per instruction, the overwrite test runs first and
`break`s the scan (accepting the pair) before the source operands are ever
inspected; otherwise a source occurrence of the register flags reuse. -/
def src_reg_reused (reg : Nat) : List Instr → Bool
  | [] => false
  | i :: rest =>
    if writes_reg i reg then false
    else if reads_reg i reg then true
    else src_reg_reused reg rest

/-- One discovered dependency edge `S → D` (the C++ `FieldDependency`,
with the clinit identified by its owning class name and the instructions by
their uids). -/
structure FieldDependency where
  src : FieldKey
  clinitCls : String
  sgetUid : Nat
  sputUid : Nat
  field : FieldKey
deriving DecidableEq, Repr

/-- The (sget, sput) candidate test of `propagate_constants` at position `i`
of a clinit body: narrow sget of a static-final source, followed by an sput
(validated for ev) to a static-final field of the same class, same register,
and the register is not flagged as reused after the pair.  The C++ reads the
lookahead iterator unconditionally (undefined when the sget is the last
instruction); the model makes the missing lookahead fail the candidate, which
agrees with the C++ on every stream not ending in a qualifying sget. -/
def find_dep_at (scope : Scope) (clazz : DexClass) (code : List Instr) (i : Nat) :
    Option FieldDependency :=
  match code.get? i with
  | none => none
  | some insn =>
    match insn.op with
    | .sget k d fref =>
      if check_sget k then
        match resolve_field scope fref with
        | none => none
        | some src_field =>
          if is_static_acc src_field.access && is_final_acc src_field.access then
            match code.get? (i + 1) with
            | none => none
            | some next_insn =>
              if validate_sput_for_ev scope clazz next_insn then
                match next_insn.op with
                | .sput s fr =>
                  match resolve_field scope fr with
                  | none => none
                  | some dst_field =>
                    if is_static_acc dst_field.access && is_final_acc dst_field.access then
                      if d = s then
                        if src_reg_reused d (code.drop (i + 2)) then none
                        else some { src := src_field.key, clinitCls := clazz.name,
                                    sgetUid := insn.uid, sputUid := next_insn.uid,
                                    field := dst_field.key }
                      else none
                    else none
                | _ => none
              else none
          else none
      else none
    | _ => none

/-- All dependency edges discovered in one class's initialiser, in stream order. -/
def deps_in_class (scope : Scope) (clazz : DexClass) : List FieldDependency :=
  match clazz.clinit with
  | none => []
  | some m => (List.range m.code.length).filterMap (find_dep_at scope clazz m.code)

/-- The dependency map `S → [edges]`, keyed by source field. -/
abbrev DepsMap := List (FieldKey × List FieldDependency)

/-- Insert one edge into the map (append to the source's list, preserving
discovery order, as the C++ `push_back` does). -/
def add_dep (m : DepsMap) (d : FieldDependency) : DepsMap :=
  if m.any (fun e => e.1 = d.src) then
    m.map (fun e => if e.1 = d.src then (e.1, e.2 ++ [d]) else e)
  else m ++ [(d.src, [d])]

/-- Build the whole dependency map over the scope. -/
def build_deps (scope : Scope) : DepsMap :=
  (scope.foldl (fun acc c => acc ++ deps_in_class scope c) []).foldl add_dep []

/-- `deps.count(k) == 0 ? none : deps[k]`. -/
def lookup_deps (m : DepsMap) (k : FieldKey) : Option (List FieldDependency) :=
  (m.find? (fun e => e.1 = k)).map (fun e => e.2)

/-- The seed collection of `propagate_constants`: every static final field not
marked blank by its own class's initialiser, in scope order.  (The C++ checks
neither concreteness nor the presence of an encoded value here.)  `none`
models the blank detector's fatal access-bit assertion. -/
def collect_seeds (scope : Scope) : List DexClass → Option (List FieldKey)
  | [] => some []
  | c :: rest =>
    match get_sput_in_clinit scope c with
    | none => none
    | some blanks =>
      match collect_seeds scope rest with
      | none => none
      | some tl =>
        some ((c.sfields.filter (fun f =>
          (is_static_acc f.access && is_final_acc f.access) && !blanks.contains f.key)).map
            DexField.key ++ tl)

/-- `MethodTransform::remove_opcode` on a clinit stream, by instruction
identity: `none` (the transform's failed-lookup assertion) when no live
instruction has the uid. -/
def remove_opcode (code : List Instr) (uid : Nat) : Option (List Instr) :=
  if code.any (fun i => i.uid = uid) then
    some (code.eraseP (fun i => i.uid = uid))
  else none

/-- Remove an instruction (by uid) from the named class's clinit. -/
def class_remove_opcode (scope : Scope) (cname : String) (uid : Nat) : Option Scope :=
  match lookup_class scope cname with
  | none => none
  | some c =>
    match c.clinit with
    | none => none
    | some m =>
      match remove_opcode m.code uid with
      | none => none
      | some code2 =>
        some (scope.map (fun c2 =>
          if c2.name = cname then { c2 with clinit := some { m with code := code2 } } else c2))

/-- The make-concrete event log: which field was written with which value,
in order (observability instrumentation; the pass itself discards it). -/
abbrev PropLog := List (FieldKey × Option EncodedValue)

/-- Process the dependency list of the dequeued field `cur`: for each edge,
make the dependent concrete with `cur`'s (pre-read) static value, remove the
pair's two instructions from the owning clinit, bump `nresolved`, and enqueue
the dependent at the back of the worklist. -/
def process_edges (val : Option EncodedValue) :
    Scope → List FieldKey → Nat → PropLog → List FieldDependency →
    Option (Scope × List FieldKey × Nat × PropLog)
  | sc, wl, n, log, [] => some (sc, wl, n, log)
  | sc, wl, n, log, d :: ds =>
    let sc1 := make_field_concrete sc d.field val
    match class_remove_opcode sc1 d.clinitCls d.sgetUid with
    | none => none
    | some sc2 =>
      match class_remove_opcode sc2 d.clinitCls d.sputUid with
      | none => none
      | some sc3 =>
        process_edges val sc3 (wl ++ [d.field]) (n + 1) (log ++ [(d.field, val)]) ds

/-- The worklist loop of `propagate_constants` (fuelled: each successful edge
removes two instructions, so the loop either terminates within the fuel bound
below or hits the remove-opcode assertion). -/
def propagate_loop (deps : DepsMap) :
    Nat → Scope → List FieldKey → Nat → PropLog → Option (Scope × Nat × PropLog)
  | 0, _, _, _, _ => none
  | _ + 1, sc, [], n, log => some (sc, n, log)
  | fuel + 1, sc, cur :: rest, n, log =>
    match lookup_deps deps cur with
    | none => propagate_loop deps fuel sc rest n log
    | some ds =>
      let val := (lookup_field sc cur).bind (fun f => f.value)
      match process_edges val sc rest n log ds with
      | none => none
      | some (sc2, wl2, n2, log2) => propagate_loop deps fuel sc2 wl2 n2 log2

/-- Total instruction count of the scope (clinit and ordinary methods). -/
def total_insns (scope : Scope) : Nat :=
  scope.foldl (fun acc c =>
    acc + (match c.clinit with | none => 0 | some m => m.code.length)
        + c.methods.foldl (fun a m => a + m.code.length) 0) 0

/-- Total static-field count of the scope. -/
def total_sfields (scope : Scope) : Nat :=
  scope.foldl (fun acc c => acc + c.sfields.length) 0

/-- `FinalInlinePass::propagate_constants`: build the dependency map, collect
the seeds, and run the worklist; returns the mutated scope, the `nresolved`
metric and the make-concrete log.  Fuel bound: dequeues ≤ seeds + pushes, and
each push follows a successful pair removal of two instructions. -/
def propagate_constants (scope : Scope) : Option (Scope × Nat × PropLog) :=
  let deps := build_deps scope
  match collect_seeds scope scope with
  | none => none
  | some seeds =>
    propagate_loop deps (total_insns scope + total_sfields scope + 1) scope seeds 0 []

/-! ## 4.E Use-site inliner -/

/-- The 64-bit value used to classify a field in `inline_field_values`:
`value != nullptr ? value->value() : 0`. -/
def field_val64 (f : DexField) : Nat :=
  match f.value with
  | none => 0
  | some ev => ev.val

/-- The cheap test of `inline_field_values`, on the 64-bit value. -/
def cheap64 (v : Nat) : Bool := v &&& 0xffff = v || v &&& 0xffff0000 = v

/-- The eligibility filter of `inline_field_values` for one field given its
class's blank set: static+final access, not blank, and either a primitive
encoded value or a missing value on a primitive-typed field. -/
def inline_cond (blanks : List FieldKey) (f : DexField) : Bool :=
  (f.access &&& (ACC_STATIC ||| ACC_FINAL) = (ACC_STATIC ||| ACC_FINAL)) &&
  !blanks.contains f.key &&
  (match f.value with
   | none => is_primitive_type f.ftype
   | some ev => ev.primitive)

/-- One class's contribution to (cheap_inline_field, inline_field). -/
def class_inline_sets (scope : Scope) (c : DexClass) :
    Option (List FieldKey × List FieldKey) :=
  match get_sput_in_clinit scope c with
  | none => none
  | some blanks =>
    let elig := c.sfields.filter (inline_cond blanks)
    some (((elig.filter (fun f => cheap64 (field_val64 f))).map DexField.key),
          elig.map DexField.key)

/-- The (cheap_inline_field, inline_field) sets over a class list. -/
def inline_sets_aux (scope : Scope) : List DexClass → Option (List FieldKey × List FieldKey)
  | [] => some ([], [])
  | c :: rest =>
    match class_inline_sets scope c with
    | none => none
    | some (ch, inl) =>
      match inline_sets_aux scope rest with
      | none => none
      | some (chr, inlr) => some (ch ++ chr, inl ++ inlr)

/-- The two membership sets computed by the first phase of
`inline_field_values`. -/
def inline_sets (scope : Scope) : Option (List FieldKey × List FieldKey) :=
  inline_sets_aux scope scope

/-- A rewrite-queue entry: which method (clinit or the n-th ordinary method of
a class) and which instruction (by uid). -/
inductive MethLoc where
  | clin (cls : String)
  | meth (cls : String) (idx : Nat)
deriving DecidableEq, Repr

/-- The rewrite collection of `walk_opcodes` in `inline_field_values`: every
static-field op whose target resolves to a concrete member of the inline set
is queued, on the cheap or the simple list. -/
def collect_rewrites (scope : Scope) (ch inl : List FieldKey) :
    List (MethLoc × Nat) × List (MethLoc × Nat) :=
  scope.foldl
    (fun acc c =>
      let ms : List (MethLoc × List Instr) :=
        (match c.clinit with
         | none => []
         | some m => [(MethLoc.clin c.name, m.code)]) ++
        (List.range c.methods.length).filterMap (fun j =>
          (c.methods.get? j).map (fun m => (MethLoc.meth c.name j, m.code)))
      ms.foldl
        (fun acc2 lm =>
          lm.2.foldl
            (fun acc3 insn =>
              match insn.op with
              | .sget _ _ fref =>
                (match resolve_field scope fref with
                 | none => acc3
                 | some f =>
                   if !f.concrete then acc3
                   else if !inl.contains f.key then acc3
                   else if ch.contains f.key then (acc3.1 ++ [(lm.1, insn.uid)], acc3.2)
                   else (acc3.1, acc3.2 ++ [(lm.1, insn.uid)]))
              | .sput _ fref =>
                (match resolve_field scope fref with
                 | none => acc3
                 | some f =>
                   if !f.concrete then acc3
                   else if !inl.contains f.key then acc3
                   else if ch.contains f.key then (acc3.1 ++ [(lm.1, insn.uid)], acc3.2)
                   else (acc3.1, acc3.2 ++ [(lm.1, insn.uid)]))
              | _ => acc3)
            acc2)
        acc)
    ([], [])

/-- `replace_opcode` on a stream: swap in the new payload at the instruction
with the given uid, keeping the uid (the model of allocating a fresh
`IRInstruction` that no later phase distinguishes from the old identity). -/
def replace_opcode (code : List Instr) (uid : Nat) (newop : InsnOp) : List Instr :=
  code.map (fun i => if i.uid = uid then { uid := uid, op := newop } else i)

/-- `inline_cheap_sget` on one queued instruction: skip SGET_WIDE, die (fatal
assertion) on any other non-narrow-sget opcode or a non-concrete target, then
replace with CONST_16 / CONST_HIGH16 on the 32-bit-truncated value — dying
when neither fits. -/
def inline_cheap_sget (scope : Scope) (code : List Instr) (uid : Nat) :
    Option (List Instr) :=
  match code.find? (fun i => i.uid = uid) with
  | none => none
  | some insn =>
    match validate_sget insn with
    | none => none
    | some false => some code
    | some true =>
      match insn.op with
      | .sget _ d fref =>
        match resolve_field scope fref with
        | none => none
        | some f =>
          if !f.concrete then none
          else
            let v := field_val64 f % 2 ^ 32
            if v &&& 0xffff = v then
              some (replace_opcode code uid (.constOp .c16 d v))
            else if v &&& 0xffff0000 = v then
              some (replace_opcode code uid (.constOp .high16 d v))
            else none
      | _ => none

/-- `inline_sget` on one queued instruction: same validation, replacement is
always OPCODE_CONST with the 32-bit-truncated value. -/
def inline_sget (scope : Scope) (code : List Instr) (uid : Nat) :
    Option (List Instr) :=
  match code.find? (fun i => i.uid = uid) with
  | none => none
  | some insn =>
    match validate_sget insn with
    | none => none
    | some false => some code
    | some true =>
      match insn.op with
      | .sget _ d fref =>
        match resolve_field scope fref with
        | none => none
        | some f =>
          if !f.concrete then none
          else
            let v := field_val64 f % 2 ^ 32
            some (replace_opcode code uid (.constOp .c32 d v))
      | _ => none

/-- Fetch the code of the located method. -/
def get_method_code (scope : Scope) (loc : MethLoc) : Option (List Instr) :=
  match loc with
  | .clin cn => (lookup_class scope cn).bind (fun c => c.clinit.map (fun m => m.code))
  | .meth cn j =>
    (lookup_class scope cn).bind (fun c => (c.methods.get? j).map (fun m => m.code))

/-- Store rewritten code back into the located method. -/
def set_method_code (scope : Scope) (loc : MethLoc) (code : List Instr) : Scope :=
  match loc with
  | .clin cn =>
    scope.map (fun c =>
      if c.name = cn then
        { c with clinit := c.clinit.map (fun m => { m with code := code }) }
      else c)
  | .meth cn j =>
    scope.map (fun c =>
      if c.name = cn then
        { c with methods :=
            (List.range c.methods.length).filterMap (fun i =>
              (c.methods.get? i).map (fun m =>
                if i = j then { m with code := code } else m)) }
      else c)

/-- Apply one queued rewrite with the given per-instruction inliner. -/
def apply_rewrite (inliner : Scope → List Instr → Nat → Option (List Instr))
    (scope : Scope) (rw : MethLoc × Nat) : Option Scope :=
  match get_method_code scope rw.1 with
  | none => none
  | some code =>
    match inliner scope code rw.2 with
    | none => none
    | some code2 => some (set_method_code scope rw.1 code2)

/-- Apply a whole rewrite queue in order. -/
def apply_rewrites (inliner : Scope → List Instr → Nat → Option (List Instr)) :
    Scope → List (MethLoc × Nat) → Option Scope
  | scope, [] => some scope
  | scope, rw :: rest =>
    match apply_rewrite inliner scope rw with
    | none => none
    | some sc => apply_rewrites inliner sc rest

/-- `inline_field_values`: compute the inline sets, queue every rewrite, then
apply the cheap queue and the simple queue in batch order. -/
def inline_field_values (scope : Scope) : Option Scope :=
  match inline_sets scope with
  | none => none
  | some (ch, inl) =>
    let rws := collect_rewrites scope ch inl
    match apply_rewrites inline_cheap_sget scope rws.1 with
    | none => none
    | some sc => apply_rewrites inline_sget sc rws.2

/-! ## 4.F Dead-field remover -/

/-- Whether the pattern appears at the head of the character list. -/
def chars_lead (p s : List Char) : Bool :=
  match p, s with
  | [], _ => true
  | _ :: _, [] => false
  | a :: ps, b :: ss => a = b && chars_lead ps ss

/-- `strstr(s, p) != nullptr`: the pattern occurs somewhere in the subject. -/
def chars_substr (p : List Char) : List Char → Bool
  | [] => chars_lead p []
  | b :: ss => chars_lead p (b :: ss) || chars_substr p ss

/-- Substring containment on strings, as `strstr` computes it. -/
def str_substr (s p : String) : Bool := chars_substr p.data s.data

/-- The external environment the pass consults: `can_delete` on classes and on
fields (ReachableClasses keep-rule queries). -/
structure DeleteEnv where
  canDeleteClass : String → Bool
  canDeleteField : FieldKey → Bool

/-- `keep_member`: the field's name exactly matches one of the configured keep
names. -/
def keep_member (keep_members : List String) (f : DexField) : Bool :=
  keep_members.any (fun k => k = f.name)

/-- One class's contribution to `moveable_fields` in `remove_unused_fields`:
`found` is the class's deletability (environment, else name-substring match
against `remove_members`); a class with `found` still false is skipped; the
field filter then applies the keep-name, access-flag and value checks, plus
the literal `!(!found && !can_delete(sfield))` guard — which, `found` being
true on every path that reaches it, never excludes anything. -/
def class_moveable (env : DeleteEnv) (remove_members keep_members : List String)
    (c : DexClass) : List FieldKey :=
  let found := env.canDeleteClass c.name ||
    remove_members.any (fun p => str_substr c.name p)
  if found then
    (c.sfields.filter (fun f =>
      !keep_member keep_members f &&
      (f.access &&& (ACC_STATIC ||| ACC_FINAL) = (ACC_STATIC ||| ACC_FINAL)) &&
      !(f.value = none && !is_primitive_type f.ftype) &&
      (found || env.canDeleteField f.key))).map DexField.key
  else []

/-- `get_called_field_defs`: every field reference gathered from every method
body, resolved, keeping the concrete definitions. -/
def get_called_field_defs (scope : Scope) : List FieldKey :=
  scope.foldl
    (fun acc c =>
      let ms := (match c.clinit with | none => [] | some m => [m]) ++ c.methods
      ms.foldl
        (fun acc2 m =>
          m.code.foldl
            (fun acc3 insn =>
              match insn.op with
              | .sget _ _ fref =>
                (match resolve_field scope fref with
                 | some f => if f.concrete then acc3 ++ [f.key] else acc3
                 | none => acc3)
              | .sput _ fref =>
                (match resolve_field scope fref with
                 | some f => if f.concrete then acc3 ++ [f.key] else acc3
                 | none => acc3)
              | _ => acc3)
            acc2)
        acc)
    []

/-- `remove_unused_fields`: compute the moveable set per class, derive the
used-field set from every method body, and erase the dead (moveable, unused)
fields from their classes' static-field lists. -/
def remove_unused_fields (scope : Scope) (remove_members keep_members : List String)
    (env : DeleteEnv) : Scope :=
  let moveable := scope.foldl
    (fun acc c => acc ++ class_moveable env remove_members keep_members c) []
  let smallscope := scope.foldl
    (fun acc c =>
      if class_moveable env remove_members keep_members c ≠ [] then acc ++ [c.name]
      else acc) []
  let field_target := get_called_field_defs scope
  let dead := moveable.filter (fun k => !field_target.contains k)
  scope.map (fun c =>
    if smallscope.contains c.name then
      { c with sfields := c.sfields.filter (fun f => !dead.contains f.key) }
    else c)

/-! ## The pass entry point -/

/-- The pass configuration bits FinalInlinePass reads. -/
structure PassConfig where
  m_replace_encodable_clinits : Bool
  m_propagate_static_finals : Bool
  m_remove_class_members : List String
  m_keep_class_members : List String

/-- `PassManager::incr_metric`. -/
def incr_metric (ms : List (String × Nat)) (key : String) (n : Nat) : List (String × Nat) :=
  if ms.any (fun e => e.1 = key) then
    ms.map (fun e => if e.1 = key then (e.1, e.2 + n) else e)
  else ms ++ [(key, n)]

/-- `FinalInlinePass::run_pass`: bail out (scope and metrics untouched) when
no ProGuard configuration was provided; otherwise replace encodable clinits,
propagate constants, replace again, inline use sites and remove dead fields,
accumulating the two metrics. -/
def run_pass (cfg : PassConfig) (no_proguard_rules : Bool) (env : DeleteEnv)
    (scope : Scope) : Option (Scope × List (String × Nat)) :=
  if no_proguard_rules then some (scope, [])
  else
    let st1 :=
      if cfg.m_replace_encodable_clinits then
        let r := replace_encodable_clinits scope
        (r.1, incr_metric [] "encodable_clinits_replaced" r.2)
      else (scope, [])
    let st2 :=
      if cfg.m_propagate_static_finals then
        match propagate_constants st1.1 with
        | none => none
        | some (sc, n, _) => some (sc, incr_metric st1.2 "static_finals_resolved" n)
      else some st1
    match st2 with
    | none => none
    | some st3 =>
      let st4 :=
        if cfg.m_replace_encodable_clinits then
          let r := replace_encodable_clinits st3.1
          (r.1, incr_metric st3.2 "encodable_clinits_replaced" r.2)
        else st3
      match inline_field_values st4.1 with
      | none => none
      | some sc5 =>
        some (remove_unused_fields sc5 cfg.m_remove_class_members
                cfg.m_keep_class_members env, st4.2)

/-! ## Concrete fixtures -/

/-- A concrete `static final` field of dex type `I` with an optional encoded
integer default. -/
def mkSF (cls fname : String) (v : Option Nat) : DexField :=
  { cls := cls, name := fname, ftype := "I", access := ACC_STATIC ||| ACC_FINAL,
    concrete := true, value := v.map (fun n => { primitive := true, val := n }) }

/-- The access bits of a well-formed static initialiser. -/
def clinitAcc : Nat := ACC_STATIC ||| ACC_CONSTRUCTOR

/-- The initialiser body of the reuse-scan fixture: a copy of `P.f` into
`C.x` followed by an instruction that both reads and writes the copied
register. -/
def codeC1 : List Instr :=
  [{ uid := 0, op := .sget .norm 0 { cls := "P", name := "f" } },
   { uid := 1, op := .sput 0 { cls := "C", name := "x" } },
   { uid := 2, op := .other (some 0) [0] },
   { uid := 3, op := .retVoid }]

/-- Fixture for the reuse-scan tie: `C`'s initialiser copies `P.f` into `C.x`
and is followed by an instruction that both reads and writes the copied
register. -/
def clsC1 : DexClass :=
  { name := "C",
    sfields := [mkSF "C" "x" none],
    clinit := some { access := clinitAcc, code := codeC1 },
    methods := [] }

/-- The two-class scope around `clsC1`. -/
def scopeC1 : Scope :=
  [{ name := "P", sfields := [mkSF "P" "f" (some 7)], clinit := none, methods := [] },
   clsC1]

/-- The claim's rejection condition on the instructions after the pair: the
register appears as a source operand of some instruction before any strictly
earlier instruction writes it (an instruction that both reads and writes
counts as a read). -/
def spec_read_before_any_write (reg : Nat) (l : List Instr) : Prop :=
  ∃ k, ∃ h : k < l.length, reads_reg (l.get ⟨k, h⟩) reg = true ∧
    ∀ j, ∀ hj : j < k, writes_reg (l.get ⟨j, Nat.lt_trans hj h⟩) reg = false

/-- Fixture for seeding: `Q.g` is static final but has no encoded value
(nullptr static value), and `R.h` copies it in `R`'s initialiser. -/
def scopeC2 : Scope :=
  [{ name := "Q", sfields := [mkSF "Q" "g" none], clinit := none, methods := [] },
   { name := "R",
     sfields := [mkSF "R" "h" (some 5)],
     clinit := some { access := clinitAcc, code :=
       [{ uid := 10, op := .sget .norm 0 { cls := "Q", name := "g" } },
        { uid := 11, op := .sput 0 { cls := "R", name := "h" } },
        { uid := 12, op := .retVoid }] },
     methods := [] }]

/-- Fixture for dead-field removal: a class the environment forbids deleting,
eligible only through the configured name substring, holding an unreferenced
static final field that the environment also forbids deleting. -/
def scopeC3 : Scope :=
  [{ name := "LPrefixThing;", sfields := [mkSF "LPrefixThing;" "k" (some 3)],
     clinit := none, methods := [] }]

/-- An environment that permits deleting nothing. -/
def envNone : DeleteEnv :=
  { canDeleteClass := fun _ => false, canDeleteField := fun _ => false }

/-- Fixture for double resolution: `C.x` is assigned from two different
resolved sources in its own initialiser. -/
def scopeC4 : Scope :=
  [{ name := "P1", sfields := [mkSF "P1" "f" (some 1)], clinit := none, methods := [] },
   { name := "P2", sfields := [mkSF "P2" "g" (some 2)], clinit := none, methods := [] },
   { name := "C",
     sfields := [mkSF "C" "x" none],
     clinit := some { access := clinitAcc, code :=
       [{ uid := 40, op := .sget .norm 0 { cls := "P1", name := "f" } },
        { uid := 41, op := .sput 0 { cls := "C", name := "x" } },
        { uid := 42, op := .sget .norm 1 { cls := "P2", name := "g" } },
        { uid := 43, op := .sput 1 { cls := "C", name := "x" } },
        { uid := 44, op := .retVoid }] },
     methods := [] }]

/-- `scopeC4` with the two source classes dequeued in the opposite order. -/
def scopeC4swap : Scope :=
  [{ name := "P2", sfields := [mkSF "P2" "g" (some 2)], clinit := none, methods := [] },
   { name := "P1", sfields := [mkSF "P1" "f" (some 1)], clinit := none, methods := [] },
   { name := "C",
     sfields := [mkSF "C" "x" none],
     clinit := some { access := clinitAcc, code :=
       [{ uid := 40, op := .sget .norm 0 { cls := "P1", name := "f" } },
        { uid := 41, op := .sput 0 { cls := "C", name := "x" } },
        { uid := 42, op := .sget .norm 1 { cls := "P2", name := "g" } },
        { uid := 43, op := .sput 1 { cls := "C", name := "x" } },
        { uid := 44, op := .retVoid }] },
     methods := [] }]

/-- The class of the clinit shape fixture: its initialiser body is one valid
(const, sput) pair with no trailing return-void. -/
def clsC5 : DexClass :=
  { name := "D", sfields := [mkSF "D" "y" none],
    clinit := some { access := clinitAcc, code :=
      [{ uid := 20, op := .constOp .c16 0 7 },
       { uid := 21, op := .sput 0 { cls := "D", name := "y" } }] },
    methods := [] }

/-- Fixture for the clinit shape check: a body that is one valid
(const, sput) pair with no trailing return-void. -/
def scopeC5 : Scope := [clsC5]

/-- A class whose initialiser does not match the pair shape (it opens with an
unrelated opcode), for the rejection half of the shape check. -/
def clsC5rej : DexClass :=
  { name := "G", sfields := [mkSF "G" "z" (some 4)],
    clinit := some { access := clinitAcc, code :=
      [{ uid := 50, op := .other none [] },
       { uid := 51, op := .retVoid }] },
    methods := [] }

/-- The one-class scope around `clsC5rej`. -/
def scopeC5rej : Scope := [clsC5rej]

/-- Fixture for idempotence: `C.x` is static but not final, so the copy from
`P.f` in `C`'s initialiser is neither a dependency edge nor an encodable pair
on the first run — but the use-site inliner rewrites the sget inside the
surviving initialiser, which the second run's clinit replacement then lifts. -/
def scopeC7 : Scope :=
  [{ name := "P", sfields := [mkSF "P" "f" (some 7)], clinit := none, methods := [] },
   { name := "C",
     sfields := [{ cls := "C", name := "x", ftype := "I", access := ACC_STATIC,
                   concrete := true, value := none }],
     clinit := some { access := clinitAcc, code :=
       [{ uid := 30, op := .sget .norm 0 { cls := "P", name := "f" } },
        { uid := 31, op := .sput 0 { cls := "C", name := "x" } },
        { uid := 32, op := .retVoid }] },
     methods := [] }]

/-- The configuration with both transformations switched on and no
member-name lists. -/
def cfgBoth : PassConfig :=
  { m_replace_encodable_clinits := true, m_propagate_static_finals := true,
    m_remove_class_members := [], m_keep_class_members := [] }

/-- Spec 4.A's `choose_const_opcode`, written from the spec's words; the
refinement target the code's split cheap/simple rewrite paths are compared
against. -/
def choose_const_opcode (v : Nat) : ConstKind :=
  if v &&& 0xffff = v then .c16
  else if v &&& 0xffff0000 = v then .high16
  else .c32

/-- Scope well-formedness: class names are unique, field names are unique
within their class, and every field's recorded declaring class is the class
that holds it.  (Dex containers guarantee all three.) -/
def scope_wf (scope : Scope) : Prop :=
  (scope.map (fun c => c.name)).Nodup ∧
  ∀ c ∈ scope, (c.sfields.map (fun f => f.name)).Nodup ∧
    ∀ f ∈ c.sfields, f.cls = c.name

instance (scope : Scope) : Decidable (scope_wf scope) := by
  unfold scope_wf
  infer_instance

/-- `scopeC2` after constant propagation: the null value of `Q.g` has been
written over `R.h`'s encoded default. -/
def scopeC2out : Scope :=
  [{ name := "Q", sfields := [mkSF "Q" "g" none], clinit := none, methods := [] },
   { name := "R",
     sfields := [{ cls := "R", name := "h", ftype := "I",
                   access := ACC_STATIC ||| ACC_FINAL, concrete := true, value := none }],
     clinit := some { access := clinitAcc, code := [{ uid := 12, op := .retVoid }] },
     methods := [] }]

/-- `scopeC4` after constant propagation: both pairs removed, `C.x` holding
the second source's value. -/
def scopeC4out : Scope :=
  [{ name := "P1", sfields := [mkSF "P1" "f" (some 1)], clinit := none, methods := [] },
   { name := "P2", sfields := [mkSF "P2" "g" (some 2)], clinit := none, methods := [] },
   { name := "C", sfields := [mkSF "C" "x" (some 2)],
     clinit := some { access := clinitAcc, code := [{ uid := 44, op := .retVoid }] },
     methods := [] }]

/-- The make-concrete log of `propagate_constants` on `scopeC4`. -/
def logC4 : PropLog :=
  [(("C", "x"), some { primitive := true, val := 1 }),
   (("C", "x"), some { primitive := true, val := 2 })]

/-- `scopeC5` after clinit replacement: the return-void-less pair body was
accepted, `D.y` populated and the initialiser removed. -/
def scopeC5out : Scope :=
  [{ name := "D", sfields := [mkSF "D" "y" (some 7)], clinit := none, methods := [] }]

/-- `scopeC7` after one run: the initialiser survives with its sget rewritten
to a narrow constant load. -/
def scopeC7once : Scope :=
  [{ name := "P", sfields := [mkSF "P" "f" (some 7)], clinit := none, methods := [] },
   { name := "C",
     sfields := [{ cls := "C", name := "x", ftype := "I", access := ACC_STATIC,
                   concrete := true, value := none }],
     clinit := some { access := clinitAcc, code :=
       [{ uid := 30, op := .constOp .c16 0 7 },
        { uid := 31, op := .sput 0 { cls := "C", name := "x" } },
        { uid := 32, op := .retVoid }] },
     methods := [] }]

/-- `scopeC7` after two runs: the second run's clinit replacement lifts the
rewritten pair, removing the initialiser and populating `C.x`. -/
def scopeC7twice : Scope :=
  [{ name := "P", sfields := [mkSF "P" "f" (some 7)], clinit := none, methods := [] },
   { name := "C",
     sfields := [{ cls := "C", name := "x", ftype := "I", access := ACC_STATIC,
                   concrete := true,
                   value := some { primitive := true, val := 7 } }],
     clinit := none, methods := [] }]

/-- The field of the wide-32 use-site fixture. -/
def fldC6 : DexField := mkSF "A" "a" (some 0x12345678)

/-- The method body of the wide-32 use-site fixture. -/
def codeC6 : List Instr :=
  [{ uid := 60, op := .sget .norm 2 { cls := "A", name := "a" } },
   { uid := 61, op := .retVoid }]

/-- Fixture for use-site inlining of a value needing the wide-32 encoding. -/
def scopeC6 : Scope :=
  [{ name := "A", sfields := [fldC6], clinit := none,
     methods := [{ access := 0, code := codeC6 }] }]

/-- Fixture for a cheap (high-16) field value. -/
def scopeC8 : Scope :=
  [{ name := "B", sfields := [mkSF "B" "b" (some 0x10000000)], clinit := none,
     methods := [] }]

/-- The valueless primitive static final field of the zero-default fixture. -/
def fldC9 : DexField := mkSF "E" "e" none

/-- The method body reading the valueless field. -/
def codeC9 : List Instr :=
  [{ uid := 90, op := .sget .norm 1 { cls := "E", name := "e" } },
   { uid := 91, op := .retVoid }]

/-- Fixture for a primitive static final field with no encoded value, read by
an ordinary method. -/
def scopeC9 : Scope :=
  [{ name := "E", sfields := [fldC9], clinit := none,
     methods := [{ access := 0, code := codeC9 }] }]

/-- `scopeC1` after constant propagation: the pair was recorded as a
dependency and removed. -/
def scopeC1out : Scope :=
  [{ name := "P", sfields := [mkSF "P" "f" (some 7)], clinit := none, methods := [] },
   { name := "C", sfields := [mkSF "C" "x" (some 7)],
     clinit := some { access := clinitAcc, code :=
       [{ uid := 2, op := .other (some 0) [0] },
        { uid := 3, op := .retVoid }] },
     methods := [] }]

instance : DecidableEq (Scope × Nat × PropLog) := instDecidableEqProd

/-! ## Claim theorems -/

/-- C10: when the pass manager reports that no ProGuard configuration was
provided, `run_pass` returns immediately: the scope is unmodified and no
metric is recorded, whatever the configuration flags. -/
theorem C10_theorem (cfg : PassConfig) (env : DeleteEnv) (scope : Scope) :
    run_pass cfg true env scope = some (scope, []) := rfl

/-- C1 counterexample: in `scopeC1` the instruction after the (sget, sput)
pair both reads and writes the sget's destination register — the claim's
rejection condition ("including when the same later instruction both reads
and writes it") holds on the scanned suffix — yet the dependency is recorded
and the pair's instructions are removed. -/
theorem C1_counterexample :
    (deps_in_class scopeC1 clsC1).map (fun d => (d.src, d.field))
      = [(("P", "f"), ("C", "x"))] ∧
    propagate_constants scopeC1
      = some (scopeC1out, 1, [(("C", "x"), some { primitive := true, val := 7 })]) ∧
    spec_read_before_any_write 0 (codeC1.drop 2) := by
  refine ⟨by decide, by decide, 0, by decide, by decide, ?_⟩
  intro j hj
  exact absurd hj (Nat.not_lt_zero j)

/-- C2 counterexample: `Q.g` is static final with no encoded value and is
still seeded, and propagation then writes that null value over the encoded
default of the dependent field `R.h`. -/
theorem C2_counterexample :
    collect_seeds scopeC2 scopeC2 = some [("Q", "g")] ∧
    lookup_field scopeC2 ("Q", "g") = some (mkSF "Q" "g" none) ∧
    propagate_constants scopeC2 = some (scopeC2out, 1, [(("R", "h"), none)]) ∧
    lookup_field scopeC2out ("R", "h")
      = some { cls := "R", name := "h", ftype := "I",
               access := ACC_STATIC ||| ACC_FINAL, concrete := true, value := none } := by
  refine ⟨by decide, by decide, by decide, by decide⟩

/-- C3 counterexample: the environment permits deleting neither the class nor
the field; the class is eligible only through the configured name substring,
and the unreferenced static final field is removed anyway. -/
theorem C3_counterexample :
    envNone.canDeleteClass "LPrefixThing;" = false ∧
    envNone.canDeleteField ("LPrefixThing;", "k") = false ∧
    str_substr "LPrefixThing;" "Prefix" = true ∧
    remove_unused_fields scopeC3 ["Prefix"] [] envNone
      = [{ name := "LPrefixThing;", sfields := [], clinit := none, methods := [] }] := by
  refine ⟨rfl, rfl, by decide, by decide⟩

/-- C5 counterexample: a body that is one well-formed (const, sput) pair with
no trailing return-void is accepted — the initialiser is removed and the
field's default populated — where the claim requires it to be rejected and
everything left unchanged. -/
theorem C5_counterexample :
    replace_encodable_clinits scopeC5 = (scopeC5out, 1) := by
  decide

/-- C4 counterexample: `C.x` receives accepted pairs from the two resolved
sources `P1.f` and `P2.g`; it is made concrete twice (two make-concrete log
entries), and the final encoded default follows the source dequeue order —
swapping the two source classes flips the result from 2 to 1. -/
theorem C4_counterexample :
    propagate_constants scopeC4 = some (scopeC4out, 2, logC4) ∧
    (logC4.filter (fun e => e.1 = ("C", "x"))).length = 2 ∧
    lookup_field scopeC4out ("C", "x") = some (mkSF "C" "x" (some 2)) ∧
    (propagate_constants scopeC4swap).map
        (fun r => (lookup_field r.1 ("C", "x")).map (fun f => f.value))
      = some (some (some { primitive := true, val := 1 })) := by
  refine ⟨by decide, by decide, by decide, by decide⟩

/-- C7 counterexample: running the pass twice on `scopeC7` yields a different
final scope than running it once (the claim allows only metric counts to
differ). -/
theorem C7_counterexample :
    ((run_pass cfgBoth false envNone scopeC7).bind
        (fun r => run_pass cfgBoth false envNone r.1)).map Prod.fst
      ≠ (run_pass cfgBoth false envNone scopeC7).map Prod.fst := by
  decide

/-- C7 amended: the pass is not idempotent.  On `scopeC7` the first run's
use-site inliner rewrites the constant into the surviving initialiser of `C`;
the second run's clinit replacement then lifts that pair, removing the
initialiser and populating `C.x`, so the twice-run scope differs from the
once-run scope exactly there. -/
theorem C7_amended :
    run_pass cfgBoth false envNone scopeC7
      = some (scopeC7once, [("encodable_clinits_replaced", 0),
                            ("static_finals_resolved", 0)]) ∧
    run_pass cfgBoth false envNone scopeC7once
      = some (scopeC7twice, [("encodable_clinits_replaced", 1),
                             ("static_finals_resolved", 0)]) ∧
    scopeC7once ≠ scopeC7twice ∧
    (lookup_class scopeC7twice "C").map (fun c => c.clinit) = some none ∧
    lookup_field scopeC7twice ("C", "x")
      = some { cls := "C", name := "x", ftype := "I", access := ACC_STATIC,
               concrete := true, value := some { primitive := true, val := 7 } } := by
  refine ⟨by decide, by decide, by decide, by decide, by decide⟩

/-- C1 amended: the reuse scan rejects a pair exactly when, among the
instructions after the pair, the first one that touches the register reads it
without also writing it; an instruction that both reads and writes the
register counts as an overwrite (the write test runs first) and the pair is
accepted. -/
theorem C1_amended (reg : Nat) (l : List Instr) :
    src_reg_reused reg l = true ↔
      ∃ k i, l.get? k = some i ∧ reads_reg i reg = true ∧ writes_reg i reg = false ∧
        ∀ j i2, j < k → l.get? j = some i2 →
          reads_reg i2 reg = false ∧ writes_reg i2 reg = false := by
  induction l with
  | nil =>
    simp [src_reg_reused]
  | cons a t ih =>
    by_cases hw : writes_reg a reg = true
    · simp only [src_reg_reused, hw, if_true]
      constructor
      · intro h; cases h
      · rintro ⟨k, i, hk, _, hwi, hmin⟩
        cases k with
        | zero =>
          rw [List.get?_cons_zero] at hk
          cases hk
          rw [hw] at hwi
          cases hwi
        | succ k2 =>
          have h0 := hmin 0 a (Nat.succ_pos k2) (List.get?_cons_zero)
          rw [hw] at h0
          cases h0.2
    · have hw2 : writes_reg a reg = false := Bool.eq_false_iff.mpr hw
      by_cases hr : reads_reg a reg = true
      · simp only [src_reg_reused, hw2, hr, Bool.false_eq_true, if_false, if_true]
        constructor
        · intro _
          exact ⟨0, a, List.get?_cons_zero, hr, hw2,
            fun j i2 hj _ => absurd hj (Nat.not_lt_zero j)⟩
        · intro _; trivial
      · have hr2 : reads_reg a reg = false := Bool.eq_false_iff.mpr hr
        simp only [src_reg_reused, hw2, hr2, Bool.false_eq_true, if_false]
        rw [ih]
        constructor
        · rintro ⟨k, i, hk, hri, hwi, hmin⟩
          refine ⟨k + 1, i, by simpa using hk, hri, hwi, ?_⟩
          intro j i2 hj hji2
          cases j with
          | zero =>
            rw [List.get?_cons_zero] at hji2
            cases hji2
            exact ⟨hr2, hw2⟩
          | succ j2 =>
            exact hmin j2 i2 (Nat.lt_of_succ_lt_succ hj) (by simpa using hji2)
        · rintro ⟨k, i, hk, hri, hwi, hmin⟩
          cases k with
          | zero =>
            rw [List.get?_cons_zero] at hk
            cases hk
            rw [hri] at hr2
            cases hr2
          | succ k2 =>
            refine ⟨k2, i, by simpa using hk, hri, hwi, ?_⟩
            intro j i2 hj hji2
            exact hmin (j + 1) i2 (Nat.succ_lt_succ hj) (by simpa using hji2)

/-- C2 amended: the initial ready set contains exactly the `static final`
fields not marked blank by their own class's initialiser — whether or not
they carry an encoded default; the seeding performs no value check at all. -/
theorem C2_amended (scope : Scope) (l : List DexClass) (seeds : List FieldKey)
    (h : collect_seeds scope l = some seeds) (k : FieldKey) :
    k ∈ seeds ↔
      ∃ c ∈ l, ∃ bs, get_sput_in_clinit scope c = some bs ∧
        ∃ f ∈ c.sfields,
          (is_static_acc f.access && is_final_acc f.access) = true ∧
          bs.contains f.key = false ∧ f.key = k := by
  induction l generalizing seeds with
  | nil =>
    simp only [collect_seeds, Option.some.injEq] at h
    subst h
    simp
  | cons c rest ih =>
    simp only [collect_seeds] at h
    cases hb : get_sput_in_clinit scope c with
    | none => rw [hb] at h; cases h
    | some bs =>
      rw [hb] at h
      cases ht : collect_seeds scope rest with
      | none => rw [ht] at h; cases h
      | some tl =>
        rw [ht] at h
        simp only [Option.some.injEq] at h
        subst h
        rw [List.mem_append]
        constructor
        · intro hmem
          cases hmem with
          | inl hc =>
            rcases List.mem_map.mp hc with ⟨f, hf, hfk⟩
            rcases List.mem_filter.mp hf with ⟨hfin, hcond⟩
            rcases (Bool.and_eq_true _ _).mp hcond with ⟨h1, h2⟩
            exact ⟨c, List.mem_cons_self c rest, bs, hb, f, hfin, h1,
              by simpa using h2, hfk⟩
          | inr htl =>
            rcases (ih tl ht).mp htl with ⟨c2, hc2, bs2, hbs2, f, hfin, h1, h2, hfk⟩
            exact ⟨c2, List.mem_cons_of_mem c hc2, bs2, hbs2, f, hfin, h1, h2, hfk⟩
        · rintro ⟨c2, hc2, bs2, hbs2, f, hfin, h1, h2, hfk⟩
          cases List.mem_cons.mp hc2 with
          | inl hceq =>
            subst hceq
            rw [hb] at hbs2
            cases hbs2
            refine Or.inl (List.mem_map.mpr ⟨f, List.mem_filter.mpr ⟨hfin, ?_⟩, hfk⟩)
            rw [h1, h2]
            rfl
          | inr hcr =>
            exact Or.inr ((ih tl ht).mpr ⟨c2, hcr, bs2, hbs2, f, hfin, h1, h2, hfk⟩)

/-- C2 witness: the amended characterization applied to `scopeC2`, whose only
seed is the valueless static final `Q.g`. -/
theorem C2_witness :
    collect_seeds scopeC2 scopeC2 = some [("Q", "g")] ∧
    ((("Q", "g") : FieldKey) ∈ ([("Q", "g")] : List FieldKey) ↔
      ∃ c ∈ scopeC2, ∃ bs, get_sput_in_clinit scopeC2 c = some bs ∧
        ∃ f ∈ c.sfields,
          (is_static_acc f.access && is_final_acc f.access) = true ∧
          bs.contains f.key = false ∧ f.key = ("Q", "g")) :=
  ⟨by decide, C2_amended scopeC2 scopeC2 [("Q", "g")] (by decide) ("Q", "g")⟩

/-- The per-class moveable set only consults the environment through
`can_delete` on the class: the field-level `can_delete` guard is dead code,
because `found` is true on every path that reaches the field filter. -/
theorem class_moveable_env_free (rm km : List String) (envA envB : DeleteEnv)
    (h : envA.canDeleteClass = envB.canDeleteClass) (c : DexClass) :
    class_moveable envA rm km c = class_moveable envB rm km c := by
  simp only [class_moveable, h]
  cases hf : (envB.canDeleteClass c.name || rm.any (fun p => str_substr c.name p)) with
  | false => simp
  | true => simp

/-- C3 amended: `remove_unused_fields` is entirely independent of the
environment's field-level `can_delete`: whenever the owning class is eligible
(by environment or by name substring), its static final fields are candidates
regardless of their own deletability, so a field of a substring-eligible class
that is not independently deletable is still removed when unreferenced. -/
theorem C3_amended (scope : Scope) (rm km : List String) (envA envB : DeleteEnv)
    (h : envA.canDeleteClass = envB.canDeleteClass) :
    remove_unused_fields scope rm km envA = remove_unused_fields scope rm km envB := by
  have hcm : class_moveable envA rm km = class_moveable envB rm km :=
    funext (fun c => class_moveable_env_free rm km envA envB h c)
  unfold remove_unused_fields
  rw [hcm]

/-- C3 witness: the amended independence applied to `scopeC3`, against an
environment that flips every field-level `can_delete` answer. -/
theorem C3_witness :
    remove_unused_fields scopeC3 ["Prefix"] [] envNone
      = remove_unused_fields scopeC3 ["Prefix"] []
          { canDeleteClass := fun _ => false, canDeleteField := fun _ => true } :=
  C3_amended scopeC3 ["Prefix"] [] envNone
    { canDeleteClass := fun _ => false, canDeleteField := fun _ => true } rfl

/-- Each edge processed appends exactly one make-concrete event and bumps
`nresolved` by one. -/
theorem process_edges_log (val : Option EncodedValue) (ds : List FieldDependency) :
    ∀ sc wl n log sc3 wl3 n3 log3,
      process_edges val sc wl n log ds = some (sc3, wl3, n3, log3) →
      log3.length + n = log.length + n3 := by
  induction ds with
  | nil =>
    intro sc wl n log sc3 wl3 n3 log3 h
    simp only [process_edges, Option.some.injEq, Prod.mk.injEq] at h
    obtain ⟨-, -, h3, h4⟩ := h
    subst h3; subst h4
    rfl
  | cons d ds2 ih =>
    intro sc wl n log sc3 wl3 n3 log3 h
    simp only [process_edges] at h
    split at h
    · cases h
    · split at h
      · cases h
      · have := ih _ (wl ++ [d.field]) (n + 1) (log ++ [(d.field, val)])
          sc3 wl3 n3 log3 h
        simp only [List.length_append, List.length_singleton] at this
        omega

/-- Over the whole worklist loop, the length of the make-concrete log grows
exactly with the `nresolved` counter. -/
theorem propagate_loop_log (deps : DepsMap) (fuel : Nat) :
    ∀ sc wl n log sc2 n2 log2,
      propagate_loop deps fuel sc wl n log = some (sc2, n2, log2) →
      log2.length + n = log.length + n2 := by
  induction fuel with
  | zero => intro sc wl n log sc2 n2 log2 h; cases h
  | succ fuel2 ih =>
    intro sc wl n log sc2 n2 log2 h
    cases wl with
    | nil =>
      simp only [propagate_loop, Option.some.injEq, Prod.mk.injEq] at h
      obtain ⟨-, h2, h3⟩ := h
      subst h2; subst h3
      rfl
    | cons cur rest =>
      simp only [propagate_loop] at h
      split at h
      · exact ih sc rest n log sc2 n2 log2 h
      · rename_i ds hd
        split at h
        · cases h
        · rename_i r sc3 wl3 n3 log3 hp
          have hstep := process_edges_log _ ds sc rest n log sc3 wl3 n3 log3 hp
          have hrest := ih sc3 wl3 n3 log3 sc2 n2 log2 h
          omega

/-- C4 amended: during propagation, a dependent field is made concrete once
per processed incoming edge — the make-concrete event count equals the
`nresolved` metric — not once per field; a field with accepted edges from
several resolved sources is written once for each, the last dequeued source
winning. -/
theorem C4_amended (scope : Scope) (sc : Scope) (n : Nat) (log : PropLog)
    (h : propagate_constants scope = some (sc, n, log)) : log.length = n := by
  unfold propagate_constants at h
  cases hs : collect_seeds scope scope with
  | none => rw [hs] at h; cases h
  | some seeds =>
    rw [hs] at h
    have := propagate_loop_log (build_deps scope)
      (total_insns scope + total_sfields scope + 1) scope seeds 0 [] sc n log h
    simpa using this

/-- C4 witness: the amended accounting applied to `scopeC4`, whose two
processed edges produce a log of length two. -/
theorem C4_witness :
    propagate_constants scopeC4 = some (scopeC4out, 2, logC4) ∧ logC4.length = 2 :=
  ⟨by decide, C4_amended scopeC4 scopeC4out 2 logC4 (by decide)⟩

/-- The pair loop accepts any flattening of valid (const, sput) pairs in
front of a remainder it accepts as empty. -/
theorem collect_pairs_flatten (scope : Scope) (clazz : DexClass)
    (ps : List (Instr × Instr))
    (hps : ∀ p ∈ ps, validate_const_for_ev p.1 = true ∧
      validate_sput_for_ev scope clazz p.2 = true ∧ p.1.destReg = p.2.srcRegs.head?)
    (tail : List Instr)
    (htl : collect_const_sputs scope clazz tail = some []) :
    collect_const_sputs scope clazz (ps.flatMap (fun p => [p.1, p.2]) ++ tail) = some ps := by
  induction ps with
  | nil => simpa using htl
  | cons p rest ih =>
    have hp := hps p (List.mem_cons_self p rest)
    have hrest : ∀ q ∈ rest, validate_const_for_ev q.1 = true ∧
        validate_sput_for_ev scope clazz q.2 = true ∧ q.1.destReg = q.2.srcRegs.head? :=
      fun q hq => hps q (List.mem_cons_of_mem p hq)
    have hflat : (p :: rest).flatMap (fun p2 => [p2.1, p2.2]) ++ tail
        = p.1 :: p.2 :: (rest.flatMap (fun p2 => [p2.1, p2.2]) ++ tail) := by
      simp [List.flatMap_cons]
    rw [hflat]
    simp only [collect_const_sputs, hp.1, hp.2.1, hp.2.2, decide_True, Bool.and_self,
      Bool.true_and, if_true, ih hrest]
    rfl

/-- Completeness of the pair-shape loop: whatever body it accepts is exactly
a flattening of valid (const, sput) pairs, optionally followed by one
return-void; every other body is rejected. -/
theorem collect_shape (scope : Scope) (clazz : DexClass) :
    ∀ (code : List Instr) (ps : List (Instr × Instr)),
      collect_const_sputs scope clazz code = some ps →
      (∀ p ∈ ps, validate_const_for_ev p.1 = true ∧
        validate_sput_for_ev scope clazz p.2 = true ∧ p.1.destReg = p.2.srcRegs.head?) ∧
      (code = ps.flatMap (fun p => [p.1, p.2]) ∨
       ∃ u, code = ps.flatMap (fun p => [p.1, p.2]) ++ [{ uid := u, op := .retVoid }])
  | [], ps, h => by
    simp only [collect_const_sputs, Option.some.injEq] at h
    subst h
    exact ⟨by simp, Or.inl rfl⟩
  | [i], ps, h => by
    simp only [collect_const_sputs] at h
    split at h
    · rename_i hr
      simp only [Option.some.injEq] at h
      subst h
      refine ⟨by simp, Or.inr ⟨i.uid, ?_⟩⟩
      obtain ⟨u, op⟩ := i
      simp only at hr
      subst hr
      rfl
    · cases h
  | c :: s :: rest, ps, h => by
    simp only [collect_const_sputs] at h
    split at h
    · rename_i hcond
      rcases Option.map_eq_some'.mp h with ⟨ps2, hps2, hcons⟩
      subst hcons
      obtain ⟨ihv, ihs⟩ := collect_shape scope clazz rest ps2 hps2
      simp only [Bool.and_eq_true, decide_eq_true_eq] at hcond
      refine ⟨?_, ?_⟩
      · intro p hp
        cases List.mem_cons.mp hp with
        | inl hpe => subst hpe; exact ⟨hcond.1.1, hcond.1.2, hcond.2⟩
        | inr hpr => exact ihv p hpr
      · rcases ihs with hflat | ⟨u, hflat⟩
        · exact Or.inl (by simp [List.flatMap_cons, ← hflat])
        · exact Or.inr ⟨u, by simp [List.flatMap_cons, hflat]⟩
    · cases h

/-- A scope in which every initialiser body fails the pair-shape check passes
through `replace_encodable_clinits` untouched, with a zero count. -/
theorem replace_fold_frame (sc : Scope)
    (hall : ∀ c ∈ sc, ∀ m : DexMethod, c.clinit = some m →
      collect_const_sputs sc c m.code = none) :
    replace_encodable_clinits sc = (sc, 0) := by
  unfold replace_encodable_clinits
  generalize sc.map (fun c => c.name) = nl
  induction nl with
  | nil => rfl
  | cons cname nl ih =>
    rw [List.foldl_cons]
    have hstep : (match lookup_class sc cname with
        | none => ((sc, 0) : Scope × Nat)
        | some clazz =>
          match clazz.clinit with
          | none => (sc, 0)
          | some m =>
            match try_replace_clinit sc clazz m with
            | none => (sc, 0)
            | some sc2 => (sc2, 0 + 1)) = (sc, 0) := by
      cases hlc : lookup_class sc cname with
      | none => rfl
      | some clazz =>
        dsimp only
        cases hcl : clazz.clinit with
        | none => rfl
        | some m =>
          dsimp only
          have hmem : clazz ∈ sc := List.mem_of_find?_eq_some hlc
          have hnone := hall clazz hmem m hcl
          have htr : try_replace_clinit sc clazz m = none := by
            unfold try_replace_clinit
            rw [hnone]
          rw [htr]
    dsimp only
    rw [hstep]
    exact ih

/-- C5 amended: the clinit replacer accepts a body exactly when it is a
strictly alternating sequence of valid (const-4/const-16/const-32 load,
same-class static write) pairs with matching registers, terminated either by
a return-void or by nothing at all — the return-void test only runs when an
odd instruction remains.  On success it populates each target field in pair
order (last write wins) and removes the initialiser; any other body is
rejected (`try_replace_clinit` yields none) and a scope all of whose
initialiser bodies are rejected is returned with every method and every
field default unchanged. -/
theorem C5_amended (scope : Scope) (clazz : DexClass) :
    (∀ ps : List (Instr × Instr),
      (∀ p ∈ ps, validate_const_for_ev p.1 = true ∧
        validate_sput_for_ev scope clazz p.2 = true ∧ p.1.destReg = p.2.srcRegs.head?) →
      collect_const_sputs scope clazz (ps.flatMap (fun p => [p.1, p.2])) = some ps ∧
      (∀ u, collect_const_sputs scope clazz
        (ps.flatMap (fun p => [p.1, p.2]) ++ [{ uid := u, op := .retVoid }]) = some ps) ∧
      (∀ m : DexMethod, m.code = ps.flatMap (fun p => [p.1, p.2]) →
        try_replace_clinit scope clazz m
          = some (remove_clinit (ps.foldl apply_const_sput scope) clazz.name))) ∧
    (∀ (code : List Instr) (ps : List (Instr × Instr)),
      collect_const_sputs scope clazz code = some ps →
      (∀ p ∈ ps, validate_const_for_ev p.1 = true ∧
        validate_sput_for_ev scope clazz p.2 = true ∧ p.1.destReg = p.2.srcRegs.head?) ∧
      (code = ps.flatMap (fun p => [p.1, p.2]) ∨
       ∃ u, code = ps.flatMap (fun p => [p.1, p.2]) ++ [{ uid := u, op := .retVoid }])) ∧
    (∀ m : DexMethod, collect_const_sputs scope clazz m.code = none →
      try_replace_clinit scope clazz m = none) ∧
    (∀ sc : Scope,
      (∀ c ∈ sc, ∀ m : DexMethod, c.clinit = some m →
        collect_const_sputs sc c m.code = none) →
      replace_encodable_clinits sc = (sc, 0)) := by
  refine ⟨?_, collect_shape scope clazz, ?_, fun sc hall => replace_fold_frame sc hall⟩
  · intro ps hps
    have hbare : collect_const_sputs scope clazz (ps.flatMap (fun p => [p.1, p.2]))
        = some ps := by
      have := collect_pairs_flatten scope clazz ps hps [] rfl
      simpa using this
    refine ⟨hbare, ?_, ?_⟩
    · intro u
      exact collect_pairs_flatten scope clazz ps hps [{ uid := u, op := .retVoid }] rfl
    · intro m hm
      simp only [try_replace_clinit, hm, hbare]
  · intro m hm
    simp only [try_replace_clinit, hm]

/-- C5 witness: the amended dichotomy applied concretely — the one-pair
return-less body of `scopeC5` is accepted, a body opening with an unrelated
opcode is rejected, and the all-rejected scope `scopeC5rej` passes through
the replacer untouched. -/
theorem C5_witness :
    collect_const_sputs scopeC5 clsC5
      ([({ uid := 20, op := .constOp .c16 0 7 },
         { uid := 21, op := .sput 0 { cls := "D", name := "y" } })].flatMap
        (fun p => [p.1, p.2]))
      = some [({ uid := 20, op := .constOp .c16 0 7 },
               { uid := 21, op := .sput 0 { cls := "D", name := "y" } })] ∧
    try_replace_clinit scopeC5 clsC5
      { access := clinitAcc, code := [{ uid := 22, op := .other none [] }] } = none ∧
    replace_encodable_clinits scopeC5rej = (scopeC5rej, 0) := by
  obtain ⟨hacc, -, hrej, hfold⟩ := C5_amended scopeC5 clsC5
  refine ⟨(hacc [({ uid := 20, op := .constOp .c16 0 7 },
      { uid := 21, op := .sput 0 { cls := "D", name := "y" } })] (by decide)).1,
    hrej { access := clinitAcc, code := [{ uid := 22, op := .other none [] }] }
      (by decide), hfold scopeC5rej ?_⟩
  intro c hc m hm
  have hcc : c = clsC5rej := List.mem_singleton.mp hc
  subst hcc
  rw [show clsC5rej.clinit = some { access := clinitAcc, code :=
    [{ uid := 50, op := .other none [] },
     { uid := 51, op := .retVoid }] } from rfl] at hm
  cases hm
  decide

/-- `find?` by a name projection returns the unique element bearing that name
when the projected names are duplicate-free. -/
theorem find_by_name_unique {α : Type} (g : α → String) (l : List α) (a : α) (s : String)
    (hn : (l.map g).Nodup) (ha : a ∈ l) (hs : g a = s) :
    l.find? (fun x => g x = s) = some a := by
  induction l with
  | nil => cases ha
  | cons b t ih =>
    rw [List.map_cons, List.nodup_cons] at hn
    by_cases hgb : g b = s
    · cases List.mem_cons.mp ha with
      | inl heq =>
        subst heq
        simp [List.find?_cons, hgb]
      | inr hat =>
        exact absurd (by rw [hgb, ← hs]; exact List.mem_map_of_mem g hat) hn.1
    · cases List.mem_cons.mp ha with
      | inl heq => subst heq; exact absurd hs hgb
      | inr hat =>
        rw [List.find?_cons]
        have hb : decide (g b = s) = false := by simp [hgb]
        rw [hb]
        exact ih hn.2 hat

/-- In a well-formed scope every stored field resolves to itself. -/
theorem resolve_self (scope : Scope) (hwf : scope_wf scope) (c : DexClass) (hc : c ∈ scope)
    (f : DexField) (hf : f ∈ c.sfields) :
    resolve_field scope { cls := c.name, name := f.name } = some f := by
  obtain ⟨hns, hcls⟩ := hwf
  unfold resolve_field
  rw [find_by_name_unique (fun c2 => c2.name) scope c c.name hns hc rfl]
  exact find_by_name_unique (fun f2 => f2.name) c.sfields f f.name (hcls c hc).1 hf rfl

/-- Unpacking a successful resolution in a well-formed scope: the field bears
the reference's names and is stored on some scope class. -/
theorem resolve_spec (scope : Scope) (hwf : scope_wf scope) (ref : FieldRef) (f : DexField)
    (h : resolve_field scope ref = some f) :
    f.cls = ref.cls ∧ f.name = ref.name ∧ ∃ c ∈ scope, f ∈ c.sfields := by
  unfold resolve_field at h
  cases hc : scope.find? (fun c => c.name = ref.cls) with
  | none => rw [hc] at h; cases h
  | some c =>
    rw [hc] at h
    have hcp : c.name = ref.cls := by simpa using List.find?_some hc
    have hcm : c ∈ scope := List.mem_of_find?_eq_some hc
    have hfp : f.name = ref.name := by simpa using List.find?_some h
    have hfm : f ∈ c.sfields := List.mem_of_find?_eq_some h
    exact ⟨((hwf.2 c hcm).2 f hfm).trans hcp, hfp, c, hcm, hfm⟩

/-- Two stored fields with the same key coincide in a well-formed scope:
whatever a reference resolves to is the only stored field with its key. -/
theorem resolve_key_unique (scope : Scope) (hwf : scope_wf scope) (ref : FieldRef)
    (f : DexField) (h : resolve_field scope ref = some f)
    (c2 : DexClass) (hc2 : c2 ∈ scope) (f2 : DexField) (hf2 : f2 ∈ c2.sfields)
    (hkey : f2.key = f.key) : f2 = f := by
  obtain ⟨hfc, hfn, c, hcm, hfm⟩ := resolve_spec scope hwf ref f h
  have h2c : f2.cls = f.cls := congrArg Prod.fst hkey
  have h2n : f2.name = f.name := congrArg Prod.snd hkey
  have hs2 := resolve_self scope hwf c2 hc2 f2 hf2
  have hc2n : c2.name = f2.cls := ((hwf.2 c2 hc2).2 f2 hf2).symm
  have href : ({ cls := c2.name, name := f2.name } : FieldRef) = ref := by
    cases ref
    simp only [FieldRef.mk.injEq]
    constructor
    · rw [hc2n, h2c, hfc]
    · rw [h2n, hfn]
  rw [href, h] at hs2
  exact Option.some.inj hs2.symm

/-- Membership in the (cheap, inline) sets built over a class list: a key is
present exactly when some listed class stores an eligible field bearing it
(with the cheap test added for the cheap set). -/
theorem mem_inline_sets_aux (scope : Scope) (l : List DexClass) (ch inl : List FieldKey)
    (h : inline_sets_aux scope l = some (ch, inl)) (k : FieldKey) :
    (k ∈ ch ↔ ∃ c ∈ l, ∃ bs, get_sput_in_clinit scope c = some bs ∧
       ∃ f ∈ c.sfields, inline_cond bs f = true ∧ cheap64 (field_val64 f) = true ∧
         f.key = k) ∧
    (k ∈ inl ↔ ∃ c ∈ l, ∃ bs, get_sput_in_clinit scope c = some bs ∧
       ∃ f ∈ c.sfields, inline_cond bs f = true ∧ f.key = k) := by
  induction l generalizing ch inl with
  | nil =>
    simp only [inline_sets_aux, Option.some.injEq, Prod.mk.injEq] at h
    obtain ⟨h1, h2⟩ := h
    subst h1; subst h2
    simp
  | cons c rest ih =>
    simp only [inline_sets_aux, class_inline_sets] at h
    cases hb : get_sput_in_clinit scope c with
    | none => rw [hb] at h; cases h
    | some bs =>
      rw [hb] at h
      cases ht : inline_sets_aux scope rest with
      | none => simp only [ht] at h; cases h
      | some pr =>
        obtain ⟨chr, inlr⟩ := pr
        simp only [ht, Option.some.injEq, Prod.mk.injEq] at h
        obtain ⟨h1, h2⟩ := h
        subst h1; subst h2
        obtain ⟨ihc, ihi⟩ := ih chr inlr ht
        constructor
        · rw [List.mem_append, ihc]
          constructor
          · intro hmem
            cases hmem with
            | inl hc =>
              rcases List.mem_map.mp hc with ⟨f, hf, hfk⟩
              rcases List.mem_filter.mp hf with ⟨hfin, hcheap⟩
              rcases List.mem_filter.mp hfin with ⟨hfin2, hcond⟩
              exact ⟨c, List.mem_cons_self c rest, bs, hb, f, hfin2, hcond, hcheap, hfk⟩
            | inr hr =>
              rcases hr with ⟨c2, hc2, bs2, hbs2, f, hfin, hcond, hcheap, hfk⟩
              exact ⟨c2, List.mem_cons_of_mem c hc2, bs2, hbs2, f, hfin, hcond, hcheap, hfk⟩
          · rintro ⟨c2, hc2, bs2, hbs2, f, hfin, hcond, hcheap, hfk⟩
            cases List.mem_cons.mp hc2 with
            | inl hceq =>
              subst hceq
              rw [hb] at hbs2
              cases hbs2
              exact Or.inl (List.mem_map.mpr
                ⟨f, List.mem_filter.mpr ⟨List.mem_filter.mpr ⟨hfin, hcond⟩, hcheap⟩, hfk⟩)
            | inr hcr =>
              exact Or.inr ⟨c2, hcr, bs2, hbs2, f, hfin, hcond, hcheap, hfk⟩
        · rw [List.mem_append, ihi]
          constructor
          · intro hmem
            cases hmem with
            | inl hc =>
              rcases List.mem_map.mp hc with ⟨f, hf, hfk⟩
              rcases List.mem_filter.mp hf with ⟨hfin, hcond⟩
              exact ⟨c, List.mem_cons_self c rest, bs, hb, f, hfin, hcond, hfk⟩
            | inr hr =>
              rcases hr with ⟨c2, hc2, bs2, hbs2, f, hfin, hcond, hfk⟩
              exact ⟨c2, List.mem_cons_of_mem c hc2, bs2, hbs2, f, hfin, hcond, hfk⟩
          · rintro ⟨c2, hc2, bs2, hbs2, f, hfin, hcond, hfk⟩
            cases List.mem_cons.mp hc2 with
            | inl hceq =>
              subst hceq
              rw [hb] at hbs2
              cases hbs2
              exact Or.inl (List.mem_map.mpr ⟨f, List.mem_filter.mpr ⟨hfin, hcond⟩, hfk⟩)
            | inr hcr =>
              exact Or.inr ⟨c2, hcr, bs2, hbs2, f, hfin, hcond, hfk⟩

/-- A resolved field whose key is in the cheap set satisfies the 64-bit cheap
test (the two sets are built from the same stored field the reference
resolves to). -/
theorem cheap_mem_cheap64 (scope : Scope) (hwf : scope_wf scope)
    (ch inl : List FieldKey) (hsets : inline_sets scope = some (ch, inl))
    (ref : FieldRef) (f : DexField) (hres : resolve_field scope ref = some f)
    (hch : f.key ∈ ch) : cheap64 (field_val64 f) = true := by
  obtain ⟨ihc, -⟩ := mem_inline_sets_aux scope scope ch inl hsets f.key
  rcases ihc.mp hch with ⟨c2, hc2, bs2, hbs2, f2, hf2, hcond, hcheap, hfk⟩
  have : f2 = f := resolve_key_unique scope hwf ref f hres c2 hc2 f2 hf2 hfk
  rw [this] at hcheap
  exact hcheap

/-- Conversely, a resolved field in the inline set with a cheap 64-bit value
has its key in the cheap set. -/
theorem inl_cheap64_mem (scope : Scope) (hwf : scope_wf scope)
    (ch inl : List FieldKey) (hsets : inline_sets scope = some (ch, inl))
    (ref : FieldRef) (f : DexField) (hres : resolve_field scope ref = some f)
    (hinl : f.key ∈ inl) (hcheap : cheap64 (field_val64 f) = true) : f.key ∈ ch := by
  obtain ⟨ihc, ihi⟩ := mem_inline_sets_aux scope scope ch inl hsets f.key
  rcases ihi.mp hinl with ⟨c2, hc2, bs2, hbs2, f2, hf2, hcond, hfk⟩
  have hf2f : f2 = f := resolve_key_unique scope hwf ref f hres c2 hc2 f2 hf2 hfk
  exact ihc.mpr ⟨c2, hc2, bs2, hbs2, f2, hf2, hcond, by rw [hf2f]; exact hcheap, hfk⟩

/-- Locating the unique instruction carrying a uid. -/
theorem find_uid_of_get (code : List Instr) (kpos : Nat) (insn : Instr)
    (hk : code.get? kpos = some insn)
    (huniq : ∀ j i2, code.get? j = some i2 → i2.uid = insn.uid → j = kpos) :
    code.find? (fun i => i.uid = insn.uid) = some insn := by
  induction code generalizing kpos with
  | nil => cases hk
  | cons a t ih =>
    by_cases ha : a.uid = insn.uid
    · have h0 : (a :: t).get? 0 = some a := rfl
      have hk0 : (0 : Nat) = kpos := huniq 0 a h0 ha
      rw [← hk0] at hk
      rw [List.get?_cons_zero] at hk
      cases hk
      simp [List.find?_cons, ha]
    · cases kpos with
      | zero =>
        rw [List.get?_cons_zero] at hk
        cases hk
        exact absurd rfl ha
      | succ k2 =>
        rw [List.get?_cons_succ] at hk
        rw [List.find?_cons]
        have hb : decide (a.uid = insn.uid) = false := by simp [ha]
        rw [hb]
        refine ih k2 hk ?_
        intro j i2 hj hu
        have := huniq (j + 1) i2 (by simpa using hj) hu
        omega

/-- `replace_opcode` rewrites exactly the instruction carrying the uid. -/
theorem replace_opcode_get (code : List Instr) (uid : Nat) (newop : InsnOp)
    (kpos : Nat) (insn : Instr) (hk : code.get? kpos = some insn)
    (hins : insn.uid = uid)
    (huniq : ∀ j i2, code.get? j = some i2 → i2.uid = uid → j = kpos) :
    (replace_opcode code uid newop).get? kpos = some { uid := uid, op := newop } ∧
    ∀ j, j ≠ kpos → (replace_opcode code uid newop).get? j = code.get? j := by
  constructor
  · unfold replace_opcode
    rw [List.get?_map, hk]
    simp [hins]
  · intro j hj
    unfold replace_opcode
    rw [List.get?_map]
    cases hcj : code.get? j with
    | none => rfl
    | some i2 =>
      have hne : i2.uid ≠ uid := fun he => hj (huniq j i2 hcj he)
      simp [hne]

/-- C6: rewriting a non-wide sget of an inlinable field whose value fits 32
bits replaces exactly that instruction with a constant load whose opcode is
the spec's `choose_const_opcode` choice — narrow-16 when `(v & 0xFFFF) == v`
(so narrow-16 at `v = 0`), else high-16 when `(v & 0xFFFF0000) == v`, else
wide-32 — carrying the original destination register and the literal `v`;
every other instruction of the method is returned unchanged. -/
theorem C6_theorem (scope : Scope) (ch inl : List FieldKey) (f : DexField)
    (code : List Instr) (uid kpos d : Nat) (k : SgetKind) (fref : FieldRef)
    (hwf : scope_wf scope)
    (hsets : inline_sets scope = some (ch, inl))
    (hres : resolve_field scope fref = some f)
    (hconc : f.concrete = true)
    (hinl : f.key ∈ inl)
    (hk : code.get? kpos = some { uid := uid, op := .sget k d fref })
    (huniq : ∀ j i2, code.get? j = some i2 → i2.uid = uid → j = kpos)
    (hnw : validate_sget { uid := uid, op := .sget k d fref } = some true)
    (hv : field_val64 f < 2 ^ 32) :
    (if f.key ∈ ch then inline_cheap_sget scope code uid
     else inline_sget scope code uid)
      = some (replace_opcode code uid
          (.constOp (choose_const_opcode (field_val64 f)) d (field_val64 f))) ∧
    (replace_opcode code uid
        (.constOp (choose_const_opcode (field_val64 f)) d (field_val64 f))).get? kpos
      = some { uid := uid,
               op := .constOp (choose_const_opcode (field_val64 f)) d (field_val64 f) } ∧
    ∀ j, j ≠ kpos →
      (replace_opcode code uid
        (.constOp (choose_const_opcode (field_val64 f)) d (field_val64 f))).get? j
        = code.get? j := by
  have hfind : code.find? (fun i => i.uid = uid) = some { uid := uid, op := .sget k d fref } :=
    find_uid_of_get code kpos { uid := uid, op := .sget k d fref } hk huniq
  have hv64 : field_val64 f % 2 ^ 32 = field_val64 f := Nat.mod_eq_of_lt hv
  obtain ⟨hrep1, hrep2⟩ := replace_opcode_get code uid
    (.constOp (choose_const_opcode (field_val64 f)) d (field_val64 f))
    kpos { uid := uid, op := .sget k d fref } hk rfl huniq
  refine ⟨?_, hrep1, hrep2⟩
  by_cases hmem : f.key ∈ ch
  · rw [if_pos hmem]
    have hcheap : cheap64 (field_val64 f) = true :=
      cheap_mem_cheap64 scope hwf ch inl hsets fref f hres hmem
    unfold inline_cheap_sget
    rw [hfind]
    dsimp only
    rw [hnw]
    dsimp only
    rw [hres]
    dsimp only
    simp only [hconc, Bool.not_true, Bool.false_eq_true, if_false, hv64]
    by_cases h16 : field_val64 f &&& 0xffff = field_val64 f
    · rw [if_pos h16]
      unfold choose_const_opcode
      rw [if_pos h16]
    · have hhigh : field_val64 f &&& 0xffff0000 = field_val64 f := by
        unfold cheap64 at hcheap
        rcases Bool.or_eq_true_iff.mp hcheap with h1 | h2
        · exact absurd (of_decide_eq_true h1) h16
        · exact of_decide_eq_true h2
      rw [if_neg h16, if_pos hhigh]
      unfold choose_const_opcode
      rw [if_neg h16, if_pos hhigh]
  · rw [if_neg hmem]
    have hnc : cheap64 (field_val64 f) = false := by
      cases hcc : cheap64 (field_val64 f) with
      | false => rfl
      | true =>
        exact absurd (inl_cheap64_mem scope hwf ch inl hsets fref f hres hinl hcc) hmem
    have hpair : (field_val64 f &&& 0xffff = field_val64 f → False) ∧
        (field_val64 f &&& 0xffff0000 = field_val64 f → False) := by
      unfold cheap64 at hnc
      constructor
      · intro he
        rw [he] at hnc
        simp at hnc
      · intro he
        rw [he] at hnc
        simp at hnc
    unfold inline_sget
    rw [hfind]
    dsimp only
    rw [hnw]
    dsimp only
    rw [hres]
    dsimp only
    simp only [hconc, Bool.not_true, Bool.false_eq_true, if_false, hv64]
    unfold choose_const_opcode
    rw [if_neg hpair.1, if_neg hpair.2]

/-- C6 witness: the rewrite theorem applied to `scopeC6`, whose field value
0x12345678 fits neither narrow-16 nor high-16 and is rewritten to a wide-32
constant load into the original register. -/
theorem C6_witness :
    field_val64 fldC6 < 2 ^ 32 ∧
    (if fldC6.key ∈ ([] : List FieldKey) then inline_cheap_sget scopeC6 codeC6 60
     else inline_sget scopeC6 codeC6 60)
      = some (replace_opcode codeC6 60
          (.constOp (choose_const_opcode (field_val64 fldC6)) 2 (field_val64 fldC6))) := by
  refine ⟨by decide, (C6_theorem scopeC6 [] [("A", "a")] fldC6 codeC6 60 0 2 .norm
    { cls := "A", name := "a" } (by decide) (by decide) (by decide) (by decide)
    (by decide) (by decide) ?_ (by decide) (by decide)).1⟩
  intro j i2 hj hu
  match j with
  | 0 => rfl
  | 1 =>
    rw [show codeC6.get? 1 = some { uid := 61, op := .retVoid } from rfl] at hj
    cases hj
    exact absurd hu (by decide)
  | j2 + 2 =>
    rw [show codeC6.get? (j2 + 2) = none from rfl] at hj
    cases hj

/-- C8: the fatal assertion in `inline_cheap_sget` is unreachable.  A field
queued on the cheap list was classified cheap on its 64-bit value, and the
cheap predicates force that value below 2^32, so the 32-bit truncation is the
identity and still satisfies narrow-16 or high-16: an opcode is always
chosen. -/
theorem C8_theorem (scope : Scope) (hwf : scope_wf scope)
    (ch inl : List FieldKey) (hsets : inline_sets scope = some (ch, inl))
    (ref : FieldRef) (f : DexField) (hres : resolve_field scope ref = some f)
    (hch : f.key ∈ ch) :
    (field_val64 f % 2 ^ 32) &&& 0xffff = field_val64 f % 2 ^ 32 ∨
    (field_val64 f % 2 ^ 32) &&& 0xffff0000 = field_val64 f % 2 ^ 32 := by
  have hcheap := cheap_mem_cheap64 scope hwf ch inl hsets ref f hres hch
  unfold cheap64 at hcheap
  rcases Bool.or_eq_true_iff.mp hcheap with h1 | h2
  · have he : field_val64 f &&& 0xffff = field_val64 f := of_decide_eq_true h1
    have hle : field_val64 f ≤ 0xffff := by rw [← he]; exact Nat.and_le_right
    have hlt : field_val64 f < 2 ^ 32 := Nat.lt_of_le_of_lt hle (by norm_num)
    rw [Nat.mod_eq_of_lt hlt]
    exact Or.inl he
  · have he : field_val64 f &&& 0xffff0000 = field_val64 f := of_decide_eq_true h2
    have hle : field_val64 f ≤ 0xffff0000 := by rw [← he]; exact Nat.and_le_right
    have hlt : field_val64 f < 2 ^ 32 := Nat.lt_of_le_of_lt hle (by norm_num)
    rw [Nat.mod_eq_of_lt hlt]
    exact Or.inr he

/-- C8 witness: the assertion-unreachability applied to `scopeC8`, whose
field value 0x10000000 is cheap via the high-16 predicate. -/
theorem C8_witness :
    ((("B", "b") : FieldKey) ∈ [(("B", "b") : FieldKey)]) ∧
    ((field_val64 (mkSF "B" "b" (some 0x10000000)) % 2 ^ 32) &&& 0xffff
        = field_val64 (mkSF "B" "b" (some 0x10000000)) % 2 ^ 32 ∨
     (field_val64 (mkSF "B" "b" (some 0x10000000)) % 2 ^ 32) &&& 0xffff0000
        = field_val64 (mkSF "B" "b" (some 0x10000000)) % 2 ^ 32) :=
  ⟨by decide, C8_theorem scopeC8 (by decide) [("B", "b")] [("B", "b")] (by decide)
    { cls := "B", name := "b" } (mkSF "B" "b" (some 0x10000000)) (by decide) (by decide)⟩

/-- C9: a static final primitive field with no encoded value that is not
blank is treated as 0: it lands in both the inline and the cheap set, and a
non-wide sget of it is rewritten to a narrow-16 constant load of literal 0
into the original register. -/
theorem C9_theorem (scope : Scope) (ch inl : List FieldKey) (c : DexClass)
    (f : DexField) (bs : List FieldKey) (code : List Instr)
    (uid kpos d : Nat) (k : SgetKind) (fref : FieldRef)
    (hsets : inline_sets scope = some (ch, inl))
    (hc : c ∈ scope) (hf : f ∈ c.sfields)
    (haccess : f.access &&& (ACC_STATIC ||| ACC_FINAL) = (ACC_STATIC ||| ACC_FINAL))
    (hprim : is_primitive_type f.ftype = true)
    (hval : f.value = none)
    (hconc : f.concrete = true)
    (hbs : get_sput_in_clinit scope c = some bs)
    (hnb : bs.contains f.key = false)
    (hk : code.get? kpos = some { uid := uid, op := .sget k d fref })
    (huniq : ∀ j i2, code.get? j = some i2 → i2.uid = uid → j = kpos)
    (hnw : validate_sget { uid := uid, op := .sget k d fref } = some true)
    (hres : resolve_field scope fref = some f) :
    f.key ∈ inl ∧ f.key ∈ ch ∧
    inline_cheap_sget scope code uid
      = some (replace_opcode code uid (.constOp .c16 d 0)) := by
  have hv0 : field_val64 f = 0 := by unfold field_val64; rw [hval]
  have hcond : inline_cond bs f = true := by
    unfold inline_cond
    rw [haccess, hnb, hval]
    simp [hprim]
  have hcheap : cheap64 (field_val64 f) = true := by rw [hv0]; decide
  obtain ⟨ihc, ihi⟩ := mem_inline_sets_aux scope scope ch inl hsets f.key
  refine ⟨ihi.mpr ⟨c, hc, bs, hbs, f, hf, hcond, rfl⟩,
    ihc.mpr ⟨c, hc, bs, hbs, f, hf, hcond, hcheap, rfl⟩, ?_⟩
  have hfind : code.find? (fun i => i.uid = uid)
      = some { uid := uid, op := .sget k d fref } :=
    find_uid_of_get code kpos { uid := uid, op := .sget k d fref } hk huniq
  unfold inline_cheap_sget
  rw [hfind]
  dsimp only
  rw [hnw]
  dsimp only
  rw [hres]
  dsimp only
  simp only [hconc, Bool.not_true, Bool.false_eq_true, if_false, hv0, Nat.zero_mod]
  rw [if_pos (by decide : (0 : Nat) &&& 65535 = 0)]

/-- C9 witness: the zero-default theorem applied to `scopeC9`: the valueless
primitive static final `E.e` joins both sets and its read becomes
`const/16 v1, 0`. -/
theorem C9_witness :
    fldC9.value = none ∧
    fldC9.key ∈ [(("E", "e") : FieldKey)] ∧
    inline_cheap_sget scopeC9 codeC9 90
      = some (replace_opcode codeC9 90 (.constOp .c16 1 0)) := by
  have happ := C9_theorem scopeC9 [("E", "e")] [("E", "e")]
    { name := "E", sfields := [fldC9], clinit := none,
      methods := [{ access := 0, code := codeC9 }] }
    fldC9 [] codeC9 90 0 1 .norm { cls := "E", name := "e" }
    (by decide) (by decide) (by decide) (by decide) (by decide) (by decide)
    (by decide) (by decide) (by decide) (by decide) ?_ (by decide) (by decide)
  · exact ⟨by decide, happ.2.1, happ.2.2⟩
  · intro j i2 hj hu
    match j with
    | 0 => rfl
    | 1 =>
      rw [show codeC9.get? 1 = some { uid := 91, op := .retVoid } from rfl] at hj
      cases hj
      exact absurd hu (by decide)
    | j2 + 2 =>
      rw [show codeC9.get? (j2 + 2) = none from rfl] at hj
      cases hj
